import Mathlib

/-!
Formal model of the bet365i ingestion pipeline.

This file gives a shallow embedding, in Lean 4, of the Python sources
`src/main.py`, `src/data/ingest.py` and `src/utils/dataframe.py`:

* JSON values, Python's `json.dumps` rendering and the recursive
  `flatten_json` transform of `main.py`;
* the CSV writer `matches_to_csv` (first-seen column order, missing
  fields as empty cells, empty artifact for zero rows);
* the fetch parameters `PremierLeagueFetchParams`, their `to_query`
  translation, and the raw/CSV artifact paths;
* the rate limited `FootballDataClient.get` (last-request timestamp,
  sleeping, `raise_for_status`) together with a timed trace model;
* the pandas based `standardize_types` of `utils/dataframe.py`, with
  cell values and the column coercions modelled explicitly;
* the `run_pipeline` orchestration loop of `main.py`.

Dictionaries are modelled as association lists preserving insertion
order (Python 3.7+ dict semantics), wall-clock instants as rationals,
and Python exceptions as `Except` values.
-/

/-! ### Decimal rendering of integers (Python `str` on `int`) -/

/-- Decimal digit character for a value below ten (`Char.ofNat (48+n)`). -/
def digitCh (n : Nat) : Char := Char.ofNat (48 + n)

/-- Decimal digit list of a natural number, most significant first,
matching Python `str(n)` for `n ≥ 0` (so `natDigits 0 = ['0']`). -/
def natDigits (n : Nat) : List Char :=
  if _h : n < 10 then [digitCh n]
  else natDigits (n / 10) ++ [digitCh (n % 10)]
termination_by n
decreasing_by
  exact Nat.div_lt_self (by omega) (by omega)

/-- Python `str` on an `int`: sign followed by decimal digits. -/
def intToString (i : Int) : String :=
  if i < 0 then "-" ++ String.mk (natDigits i.natAbs) else String.mk (natDigits i.natAbs)

/-! ### JSON values

Payloads of the football-data API are JSON trees.  Objects are
insertion-ordered association lists, numbers are modelled as integers
(match payloads carry only integral numbers). -/

/-- A JSON value as manipulated by `main.py`. -/
inductive Json where
  | null : Json
  | bool (b : Bool) : Json
  | num (n : Int) : Json
  | str (s : String) : Json
  | arr (xs : List Json) : Json
  | obj (fields : List (String × Json)) : Json

/-- Hexadecimal digit character (for `\u00XX` escapes). -/
def hexCh (n : Nat) : Char := if n < 10 then digitCh n else Char.ofNat (97 + (n - 10))

/-- Escaping of one character inside a JSON string literal, following
`json.dumps` with `ensure_ascii=False`. -/
def escapeChar (c : Char) : String :=
  if c = '"' then "\\\""
  else if c = '\\' then "\\\\"
  else if c = '\n' then "\\n"
  else if c = '\t' then "\\t"
  else if c = '\x0d' then "\\r"
  else if c = '\x08' then "\\b"
  else if c = '\x0c' then "\\f"
  else if c.toNat < 32 then "\\u00" ++ String.mk [hexCh (c.toNat / 16), hexCh (c.toNat % 16)]
  else String.singleton c

/-- JSON string literal rendering used by `json.dumps`. -/
def dumpsString (s : String) : String :=
  "\"" ++ String.join (s.data.map escapeChar) ++ "\""

mutual

/-- Python `json.dumps(value, ensure_ascii=False)` with the default
separators `", "` and `": "`, as used by `flatten_json` on sequences. -/
def json_dumps (j : Json) : String :=
  match j with
  | .null => "null"
  | .bool b => if b then "true" else "false"
  | .num n => intToString n
  | .str s => dumpsString s
  | .arr xs => "[" ++ dumpsArr xs ++ "]"
  | .obj fields => "\x7b" ++ dumpsFields fields ++ "\x7d"
termination_by sizeOf j

/-- Comma-separated rendering of the elements of a JSON array. -/
def dumpsArr (xs : List Json) : String :=
  match xs with
  | [] => ""
  | [x] => json_dumps x
  | x :: y :: rest => json_dumps x ++ ", " ++ dumpsArr (y :: rest)
termination_by sizeOf xs

/-- Comma-separated rendering of the fields of a JSON object. -/
def dumpsFields (fields : List (String × Json)) : String :=
  match fields with
  | [] => ""
  | [(k, v)] => dumpsString k ++ ": " ++ json_dumps v
  | (k, v) :: f :: rest => dumpsString k ++ ": " ++ json_dumps v ++ ", " ++ dumpsFields (f :: rest)
termination_by sizeOf fields

end

/-! ### `flatten_json` (src/main.py, lines 28-41) -/

/-- Python `dict` insertion of one key: if the key is already present its
value is replaced in place, otherwise the pair is appended at the end. -/
def dictInsert (base : List (String × Json)) (k : String) (v : Json) : List (String × Json) :=
  if base.any (fun kv => kv.1 = k) then
    base.map (fun kv => if kv.1 = k then (k, v) else kv)
  else
    base ++ [(k, v)]

/-- Python `dict.update`: left-to-right insertion of every pair of `new`
into `base`. -/
def dictUpdate (base new : List (String × Json)) : List (String × Json) :=
  new.foldl (fun b kv => dictInsert b kv.1 kv.2) base

/-- Dot-joined key prefixing of `flatten_json`:
`f"{prefix}.{key}" if prefix else key` (Python truthiness: the empty
prefix yields the bare key). -/
def dotJoin (pfx key : String) : String :=
  if pfx = "" then key else pfx ++ "." ++ key

mutual

/-- The recursive `flatten_json` of `main.py`.  A mapping recurses into
its children accumulating into an insertion-ordered dict; a non-text
sequence is serialised whole with `json.dumps` under the current prefix;
a scalar is emitted as-is; with the falsy empty prefix a sequence or
scalar yields the empty dict. -/
def flatten_json (j : Json) (pfx : String) : List (String × Json) :=
  match j with
  | .obj fields => flattenFields fields pfx []
  | .arr xs => if pfx = "" then [] else [(pfx, .str (json_dumps (.arr xs)))]
  | .null => if pfx = "" then [] else [(pfx, .null)]
  | .bool b => if pfx = "" then [] else [(pfx, .bool b)]
  | .num n => if pfx = "" then [] else [(pfx, .num n)]
  | .str s => if pfx = "" then [] else [(pfx, .str s)]
termination_by sizeOf j

/-- The `for key, nested in value.items(): items.update(...)` loop of
`flatten_json`, with `items` as the accumulator. -/
def flattenFields (fields : List (String × Json)) (pfx : String)
    (items : List (String × Json)) : List (String × Json) :=
  match fields with
  | [] => items
  | (k, v) :: rest =>
      flattenFields rest pfx (dictUpdate items (flatten_json v (dotJoin pfx k)))
termination_by sizeOf fields

end

/-- Scalar JSON values: everything `flatten_json` neither recurses into
nor serialises (not a mapping and not a sequence). -/
def Json.isScalar : Json → Bool
  | .arr _ => false
  | .obj _ => false
  | _ => true

/-! ### `matches_to_csv` (src/main.py, lines 43-65) -/

/-- The CSV artifact written by `matches_to_csv`: either the explicitly
empty file (`output_path.write_text("")`) or a header plus positional
rows, where a missing field is the empty cell (`none`, rendered as the
empty string by `csv.DictWriter`). -/
inductive CsvArtifact where
  | empty : CsvArtifact
  | table (header : List String) (rows : List (List (Option Json))) : CsvArtifact

/-- Python `row.get(field)` on a flattened row. -/
def rowGet (row : List (String × Json)) (k : String) : Option Json :=
  (row.find? (fun kv => kv.1 = k)).map (fun kv => kv.2)

/-- The fieldname scan of `matches_to_csv`: keys of every row in input
order, each key recorded at its first occurrence (`seen` set modelled by
list membership). -/
def firstSeenFields (rows : List (List (String × Json))) : List String :=
  rows.foldl
    (fun acc row =>
      row.foldl (fun acc2 kv => if kv.1 ∈ acc2 then acc2 else acc2 ++ [kv.1]) acc)
    []

/-- Specification-side description of first-seen key order: scan the
concatenated key sequence and drop every later duplicate. -/
def firstSeenDedup (ks : List String) : List String :=
  match ks with
  | [] => []
  | k :: rest => k :: firstSeenDedup (rest.filter (fun x => x ≠ k))
termination_by ks.length
decreasing_by
  exact Nat.lt_succ_of_le (List.length_filter_le _ _)

/-- Core of `matches_to_csv` once the matches are flattened: empty input
writes the empty artifact, otherwise first-seen fieldnames become the
header and each row is written positionally via `row.get`. -/
def rowsToCsv (rows : List (List (String × Json))) : CsvArtifact :=
  if rows.isEmpty then .empty
  else
    let fieldnames := firstSeenFields rows
    .table fieldnames (rows.map (fun row => fieldnames.map (fun f => rowGet row f)))

/-- `matches_to_csv`: flatten every match record, then write the table. -/
def matches_to_csv (records : List Json) : CsvArtifact :=
  rowsToCsv (records.map (fun m => flatten_json m ""))

/-- The `payload.get("matches", []) if isinstance(payload, Mapping) else []`
extraction of `ingest_dataset`. -/
def payloadMatches (payload : Json) : Json :=
  match payload with
  | .obj fields => ((fields.find? (fun kv => kv.1 = "matches")).map (fun kv => kv.2)).getD (.arr [])
  | _ => .arr []

/-! ### Fetch parameters and query translation (src/data/ingest.py) -/

/-- A value of the query-parameter dict built by `to_query`. -/
inductive QueryVal where
  | int (i : Int) : QueryVal
  | str (s : String) : QueryVal
deriving DecidableEq

/-- `PremierLeagueFetchParams` (dataclass of `ingest.py`). -/
structure PremierLeagueFetchParams where
  season : Int
  status : String := "FINISHED"
  date_from : Option String := none
  date_to : Option String := none
  competition_code : String := "PL"
deriving DecidableEq

/-- `PremierLeagueFetchParams.to_query`: always `season` and `status`;
`dateFrom` / `dateTo` added only when the corresponding field is truthy
(`if self.date_from:` — `None` and the empty string are falsy). -/
def PremierLeagueFetchParams.to_query (p : PremierLeagueFetchParams) : List (String × QueryVal) :=
  let query := [("season", QueryVal.int p.season), ("status", QueryVal.str p.status)]
  let query := match p.date_from with
    | some s => if s = "" then query else query ++ [("dateFrom", QueryVal.str s)]
    | none => query
  let query := match p.date_to with
    | some s => if s = "" then query else query ++ [("dateTo", QueryVal.str s)]
    | none => query
  query

/-! ### Artifact paths -/

/-- Python `str.lower()` (ASCII case folding, character by character). -/
def strLower (s : String) : String := String.mk (s.data.map Char.toLower)

/-- `PremierLeagueFetcher._build_output_path`: note the hard-coded
`premier_league` stem — the competition code does not appear. -/
def build_output_path (output_dir : String) (p : PremierLeagueFetchParams) : String :=
  output_dir ++ "/" ++ ("premier_league_" ++ intToString p.season ++ "_" ++ strLower p.status ++ ".json")

/-- `build_csv_path` of `main.py`: the CSV stem does use the (lowercased)
competition code. -/
def build_csv_path (output_dir : String) (p : PremierLeagueFetchParams) : String :=
  output_dir ++ "/" ++ (strLower p.competition_code ++ "_" ++ intToString p.season ++ "_" ++ strLower p.status ++ ".csv")

/-! ### The rate limited client (src/data/ingest.py, FootballDataClient)

Wall-clock instants are rationals.  `session.get` either returns a
response (any status code) or raises a transport error (timeout,
connection failure) — in the latter case no response object exists. -/

/-- `MIN_REQUEST_INTERVAL_SECONDS = 6.2`. -/
def MIN_REQUEST_INTERVAL_SECONDS : ℚ := 62 / 10

/-- Mutable state of a `FootballDataClient`: the configured minimum
interval and `_last_request_ts` (initially `None`). -/
structure ClientState where
  min_interval_seconds : ℚ
  last_request_ts : Option ℚ
deriving DecidableEq

/-- Outcome of the underlying `session.get` call. -/
inductive HttpOutcome where
  | response (code : Nat) (body : Json) : HttpOutcome
  | transportError : HttpOutcome

/-- Errors raised out of `FootballDataClient.get`. -/
inductive GetError where
  | transport : GetError
  | httpStatus (code : Nat) : GetError
deriving DecidableEq

/-- Whether an outcome is an HTTP response (as opposed to a raised
transport error). -/
def HttpOutcome.isResponse : HttpOutcome → Bool
  | .response _ _ => true
  | .transportError => false

/-- Sleep performed at the top of `get`: zero when no request was issued
yet, otherwise the remaining part of the minimum interval. -/
def sleepDuration (st : ClientState) (now : ℚ) : ℚ :=
  match st.last_request_ts with
  | none => 0
  | some last => if now - last < st.min_interval_seconds
      then st.min_interval_seconds - (now - last) else 0

/-- `response.raise_for_status()`: an error for status codes 400-599,
the JSON body otherwise. -/
def raiseForStatus (code : Nat) (body : Json) : Except GetError Json :=
  if 400 ≤ code ∧ code < 600 then .error (.httpStatus code) else .ok body

/-- State transition and result of `FootballDataClient.get` around the
`session.get` call issued at completion instant `tComplete`.  When
`session.get` raises (transport error) the statement
`self._last_request_ts = time.time()` is never reached, so the old
timestamp survives; when a response arrives the timestamp is set before
`raise_for_status` is evaluated, so even an HTTP error consumes a slot. -/
def clientGet (st : ClientState) (tComplete : ℚ) (o : HttpOutcome) :
    Except GetError Json × ClientState :=
  match o with
  | .transportError => (.error .transport, st)
  | .response code body =>
      (raiseForStatus code body, ⟨st.min_interval_seconds, some tComplete⟩)

/-- One observed call in a timed trace: the instant `time.time()` is
read at entry, and the instant the `session.get` call finishes. -/
structure CallEvent where
  tEntry : ℚ
  tComplete : ℚ
  outcome : HttpOutcome

/-- Validity of a timed trace of sequential `get` calls against the
client semantics: calls do not overlap (`tPrev ≤ tEntry`), the request
is only issued after the computed sleep (`time.sleep` blocks at least
the requested duration, the request itself takes nonnegative time), and
the client state is threaded through `clientGet`. -/
def validRun (st : ClientState) (tPrev : ℚ) (events : List CallEvent) : Bool :=
  match events with
  | [] => true
  | e :: rest =>
      decide (tPrev ≤ e.tEntry) &&
      decide (e.tEntry + sleepDuration st e.tEntry ≤ e.tComplete) &&
      validRun (clientGet st e.tComplete e.outcome).2 e.tComplete rest

/-- Completion instant of the last call of a trace (`d` when empty). -/
def lastCompletion (d : ℚ) (events : List CallEvent) : ℚ :=
  match events with
  | [] => d
  | e :: rest => lastCompletion e.tComplete rest

/-! ### The pipeline orchestrator (src/main.py, run_pipeline) -/

/-- One dataset descriptor of the `DATASETS` table of `main.py`. -/
structure Dataset where
  season : Int
  status : String
  competition : String
deriving DecidableEq

/-- The configured `DATASETS` list. -/
def DATASETS : List Dataset :=
  [⟨2023, "FINISHED", "PL"⟩, ⟨2024, "FINISHED", "PL"⟩, ⟨2025, "FINISHED", "PL"⟩]

/-- The `for dataset in DATASETS:` loop of `run_pipeline`.  The body
(ingest, clean, featurize — side-effecting, abstracted as `f`) runs
sequentially; an exception raised by the body propagates out of the
loop.  Returned are the datasets on which the body was invoked and
either the collected per-dataset results or the propagated exception. -/
def run_pipeline {E A : Type} (f : Dataset → Except E A) :
    List Dataset → List Dataset × Except E (List A)
  | [] => ([], .ok [])
  | d :: rest =>
      match f d with
      | .error e => ([d], .error e)
      | .ok a =>
          let (attempted, result) := run_pipeline f rest
          (d :: attempted, result.map (fun as => a :: as))

/-! ### Cell values and pandas coercions (src/utils/dataframe.py)

A loaded table is an ordered list of named columns of cells.  Cells
carry the dtypes that occur in this pipeline: missing (`NaN`/`NaT`/
`<NA>`), integers, non-integral numerics (Python floats, as rationals),
strings, booleans, and timezone-aware timestamps (nanoseconds since the
epoch).  The timestamp parser of `pd.to_datetime` is kept abstract as a
function argument; its output type is all the theorems depend on. -/

/-- One cell of a pandas column. -/
inductive Cell where
  | na : Cell
  | int (n : Int) : Cell
  | rat (q : ℚ) : Cell
  | str (s : String) : Cell
  | bool (b : Bool) : Cell
  | dt (t : Int) : Cell
deriving DecidableEq

/-- A dataframe: insertion-ordered named columns. -/
abbrev DataFrame : Type := List (String × List Cell)

/-- The single way `standardize_types` can raise: the `astype("Int64")`
safe cast fails (pandas refuses to cast a non-integral float to a
nullable integer). -/
inductive StdError where
  | int64CastError : StdError
deriving DecidableEq

instance : Subsingleton StdError := ⟨fun a b => by cases a; cases b; rfl⟩

deriving instance DecidableEq for Except

/-- Whitespace characters matched by Python's `str.strip` and the
regex `\s` (ASCII portion). -/
def isPySpace (c : Char) : Bool :=
  c = ' ' || c = '\t' || c = '\n' || c = '\x0d' || c = '\x0c' || c = '\x0b'

/-- Python `str.strip()` on a character list: drop leading and trailing
whitespace. -/
def stripChars (l : List Char) : List Char :=
  ((l.dropWhile isPySpace).reverse.dropWhile isPySpace).reverse

/-- Global `re` replacement of `\s+` by `"_"`: every maximal run of
whitespace collapses to a single underscore. -/
def collapseWs (l : List Char) : List Char :=
  match l with
  | [] => []
  | c :: rest =>
      if isPySpace c then '_' :: collapseWs (rest.dropWhile isPySpace)
      else c :: collapseWs rest
termination_by l.length
decreasing_by
  · exact Nat.lt_succ_of_le (List.dropWhile_sublist _).length_le
  · exact Nat.lt_succ_self _

/-- Digit-sequence value (`none` when empty or containing a non-digit). -/
def digitsVal (cs : List Char) : Option Nat :=
  if cs = [] then none
  else if cs.all Char.isDigit then
    some (cs.foldl (fun acc c => acc * 10 + (c.toNat - 48)) 0)
  else none

/-- Unsigned decimal parser for `pd.to_numeric` string input: digits
with an optional fractional part (either side of the dot may be empty,
but not both).  The value `intpart.fracpart` is the rational
`(intpart·10^k + fracpart) / 10^k`.  Exponent notation is not
modelled. -/
def parseUnsigned (cs : List Char) : Option ℚ :=
  match cs.span (fun c => c ≠ '.') with
  | (intPart, []) => (digitsVal intPart).map (fun n => mkRat n 1)
  | (intPart, _dot :: fracPart) =>
      if intPart.all Char.isDigit ∧ fracPart.all Char.isDigit ∧
          (intPart ≠ [] ∨ fracPart ≠ []) then
        some (mkRat
          (((intPart.foldl (fun acc c => acc * 10 + (c.toNat - 48)) 0) * 10 ^ fracPart.length +
            fracPart.foldl (fun acc c => acc * 10 + (c.toNat - 48)) 0 : Nat) : Int)
          (10 ^ fracPart.length))
      else none

/-- Numeric parser applied by `pd.to_numeric` to a string cell:
surrounding whitespace is ignored, an optional sign precedes the
decimal literal. -/
def parseDecimal (s : String) : Option ℚ :=
  match stripChars s.data with
  | '-' :: rest => (parseUnsigned rest).map Neg.neg
  | '+' :: rest => parseUnsigned rest
  | rest => parseUnsigned rest

/-- `pd.to_datetime(·, errors="coerce", utc=True)` on one cell: an
already-converted timestamp is untouched, a missing value stays
missing, a string goes through the (abstract) timestamp parser, an
integer is taken as nanoseconds since the epoch; other cells coerce to
missing. -/
def toDatetimeCell (parseTs : String → Option Int) : Cell → Cell
  | .dt t => .dt t
  | .na => .na
  | .str s => match parseTs s with
      | some t => .dt t
      | none => .na
  | .int n => .dt n
  | .rat _ => .na
  | .bool _ => .na

/-- `pd.to_numeric(·, errors="coerce")` on one cell: numerics pass
through, strings are parsed (failures coerce to missing), booleans
become 0/1, timestamps their nanosecond value. -/
def toNumericCell (c : Cell) : Cell :=
  match c with
  | .int n => .int n
  | .rat q => .rat q
  | .na => .na
  | .str s => match parseDecimal s with
      | some q => if q.den = 1 then .int q.num else .rat q
      | none => .na
  | .bool b => .int (if b then 1 else 0)
  | .dt t => .int t

/-- `astype("Int64")` on one numeric cell: missing stays missing,
integral values cast, and a non-integral float raises the pandas
safe-cast `TypeError` (`cannot safely cast non-equivalent float64 to
int64`). -/
def astypeInt64Cell (c : Cell) : Except StdError Cell :=
  match c with
  | .na => .ok .na
  | .int n => .ok (.int n)
  | .rat q => if q.den = 1 then .ok (.int q.num) else .error .int64CastError
  | .bool b => .ok (.int (if b then 1 else 0))
  | .dt t => .ok (.int t)
  | .str _ => .error .int64CastError

/-- Exception propagation of a Python statement sequence: if the first
computation raises, the rest is skipped. -/
def exBind {α β : Type} (x : Except StdError α) (f : α → Except StdError β) : Except StdError β :=
  match x with
  | .error e => .error e
  | .ok a => f a

/-- Elementwise fallible application over a list, aborting on the first
raise (the effect of a raising pandas column operation). -/
def mapMExcept {α β : Type} (g : α → Except StdError β) : List α → Except StdError (List β)
  | [] => .ok []
  | a :: rest =>
      match g a with
      | .error e => .error e
      | .ok b =>
          match mapMExcept g rest with
          | .error e => .error e
          | .ok bs => .ok (b :: bs)

/-- `_convert_to_int` on a column's cells: `pd.to_numeric(col,
errors="coerce")` (never raises) followed by `astype("Int64")` (raises
if any resulting cell is a non-integral float). -/
def convertIntColumn (cells : List Cell) : Except StdError (List Cell) :=
  mapMExcept astypeInt64Cell (cells.map toNumericCell)

/-- `WINNER_MAP` of `utils/dataframe.py`. -/
def WINNER_MAP : List (String × String) :=
  [("HOME_TEAM", "H"), ("AWAY_TEAM", "A"), ("DRAW", "D")]

/-- `Series.map(WINNER_MAP)` on one cell: a key of the lookup maps to
its abbreviation, everything else (including missing) becomes missing. -/
def winnerMapCell (c : Cell) : Cell :=
  match c with
  | .str s => match (WINNER_MAP.find? (fun kv => kv.1 = s)).map (fun kv => kv.2) with
      | some v => .str v
      | none => .na
  | _ => .na

/-- `Series.fillna(orig)` on one cell. -/
def fillnaCell (c orig : Cell) : Cell :=
  match c with
  | .na => orig
  | c' => c'

/-- The `score.winner` transform: `mapped = col.map(WINNER_MAP)` then
`mapped.fillna(col)` — unrecognized values pass through unchanged. -/
def winnerCell (c : Cell) : Cell :=
  fillnaCell (winnerMapCell c) c

/-- `astype("string")` on one cell (missing propagates).  The renderings
of float and timestamp cells are approximations of pandas' and are never
exercised by the pipeline's string columns. -/
def astypeStringCell : Cell → Cell
  | .na => .na
  | .str s => .str s
  | .int n => .str (intToString n)
  | .bool b => .str (if b then "True" else "False")
  | .rat q => .str (intToString q.num ++ "/" ++ String.mk (natDigits q.den))
  | .dt t => .str (intToString t)

/-- `_strip_text` on one cell: `astype("string").str.strip()
.str.replace(r"\s+", "_", regex=True)`. -/
def stripTextCell (c : Cell) : Cell :=
  match astypeStringCell c with
  | .str s => .str (String.mk (collapseWs (stripChars s.data)))
  | c' => c'

/-! ### Column application and `standardize_types` -/

/-- `column in df` (pandas column membership). -/
def dfContains (df : DataFrame) (col : String) : Bool :=
  df.any (fun c => c.1 = col)

/-- In-place assignment `df[col] = f(df[col])` guarded by
`if column in df:` — absent columns are silently skipped. -/
def applyCol (df : DataFrame) (col : String) (f : List Cell → List Cell) : DataFrame :=
  if dfContains df col then
    df.map (fun c => if c.1 = col then (c.1, f c.2) else c)
  else df

/-- Guarded in-place assignment whose right-hand side can raise. -/
def applyColM (df : DataFrame) (col : String)
    (f : List Cell → Except StdError (List Cell)) : Except StdError DataFrame :=
  if dfContains df col then
    mapMExcept (fun c => if c.1 = col then (f c.2).map (fun cells => (c.1, cells)) else .ok c) df
  else .ok df

/-- The `for column in ID_COLUMNS:` loop of `standardize_types`,
threading the frame through the fallible integer coercion. -/
def applyColsM (df : DataFrame) (cols : List String) : Except StdError DataFrame :=
  match cols with
  | [] => .ok df
  | col :: rest => exBind (applyColM df col convertIntColumn) (fun df2 => applyColsM df2 rest)

/-- `ID_COLUMNS` of `utils/dataframe.py`. -/
def ID_COLUMNS : List String := ["id", "homeTeam.id", "awayTeam.id"]

/-- `TEAM_NAME_COLUMNS` of `utils/dataframe.py`. -/
def TEAM_NAME_COLUMNS : List String := ["homeTeam.name", "awayTeam.name"]

/-- `standardize_types` of `utils/dataframe.py`: a copy of the input
with the two timestamp columns, the `matchday` ordinal, the identifier
columns, the winner code and the team name columns normalized, in
source order.  The copy (`df.copy()`) is implicit in the purely
functional embedding; a raise inside a coercion aborts the remaining
statements. -/
def standardize_types (parseTs : String → Option Int) (df : DataFrame) :
    Except StdError DataFrame :=
  let c1 := applyCol df "utcDate" (List.map (toDatetimeCell parseTs))
  let c2 := applyCol c1 "lastUpdated" (List.map (toDatetimeCell parseTs))
  exBind (applyColM c2 "matchday" convertIntColumn) fun c3 =>
  exBind (applyColsM c3 ID_COLUMNS) fun c6 =>
  let c7 := applyCol c6 "score.winner" (List.map winnerCell)
  let c8 := TEAM_NAME_COLUMNS.foldl
    (fun acc col => applyCol acc col (List.map stripTextCell)) c7
  .ok c8

/-- The nine columns `standardize_types` targets. -/
def targetColumns : List String :=
  ["utcDate", "lastUpdated", "matchday", "id", "homeTeam.id", "awayTeam.id",
   "score.winner", "homeTeam.name", "awayTeam.name"]

/-- Per-column summary of `standardize_types`: the coercions one named
column undergoes, with the guards in source order (at most one fires
since the nine target names are distinct). -/
def columnStd (parseTs : String → Option Int) (c : String × List Cell) :
    Except StdError (String × List Cell) :=
  let cells := c.2
  let cells := if c.1 = "utcDate" then cells.map (toDatetimeCell parseTs) else cells
  let cells := if c.1 = "lastUpdated" then cells.map (toDatetimeCell parseTs) else cells
  exBind (if c.1 = "matchday" then convertIntColumn cells else .ok cells) fun cells =>
  exBind (if c.1 = "id" then convertIntColumn cells else .ok cells) fun cells =>
  exBind (if c.1 = "homeTeam.id" then convertIntColumn cells else .ok cells) fun cells =>
  exBind (if c.1 = "awayTeam.id" then convertIntColumn cells else .ok cells) fun cells =>
  let cells := if c.1 = "score.winner" then cells.map winnerCell else cells
  let cells := if c.1 = "homeTeam.name" then cells.map stripTextCell else cells
  let cells := if c.1 = "awayTeam.name" then cells.map stripTextCell else cells
  .ok (c.1, cells)

/-- A timestamp parser that recognizes nothing (used for witnesses; the
theorems hold for every parser). -/
def noTsParse : String → Option Int := fun _ => none

/-- A pipeline stage that raises on the 2023 dataset (for exercising the
orchestrator's control flow). -/
def failOn2023 : Dataset → Except String Unit :=
  fun d => if d.season = 2023 then .error "HTTP 500 while fetching dataset" else .ok ()

/-- A pipeline stage that raises on the 2024 dataset — the second of the
configured three — for exercising a failure preceded by a success. -/
def failOn2024 : Dataset → Except String Unit :=
  fun d => if d.season = 2024 then .error "HTTP 500 while fetching dataset" else .ok ()

/-- A pipeline stage that always succeeds. -/
def stageOk : Dataset → Except String Nat := fun _ => .ok 0

/-! ## Theorems -/

/-! ### C1 — per-dataset failure isolation in `run_pipeline` -/

/-- C1, counterexample.  The claim says a failure on one dataset is
recorded as that dataset's outcome and does not prevent subsequent
datasets from being processed.  On the code, a stage failure on the
first configured dataset propagates out of the loop: only the first
dataset is ever attempted (not all three) and the pipeline ends with
the propagated exception instead of per-dataset outcomes. -/
theorem run_pipeline_c1_counterexample :
    (run_pipeline failOn2023 DATASETS).1 = [⟨2023, "FINISHED", "PL"⟩] ∧
    (run_pipeline failOn2023 DATASETS).1 ≠ DATASETS ∧
    DATASETS.length = 3 ∧
    (run_pipeline failOn2023 DATASETS).2 = .error "HTTP 500 while fetching dataset" := by
  refine ⟨rfl, by decide, rfl, rfl⟩

/-- C1, amended.  A failure while processing one dataset — at any
position of the configured list — propagates and aborts `run_pipeline`:
exactly the preceding (successful) datasets and the failing one are
attempted, the raised error is the loop's outcome, and no subsequent
dataset is processed.  One outcome per dataset is available exactly
when every dataset's stage succeeds: the all-success case yields one
result per dataset, and conversely collected outcomes imply every
stage succeeded. -/
theorem run_pipeline_c1_amended :
    (∀ (E A : Type) (f : Dataset → Except E A) (pre : List Dataset) (d : Dataset)
        (rest : List Dataset) (e : E),
        (∀ x ∈ pre, ∃ a, f x = .ok a) → f d = .error e →
        run_pipeline f (pre ++ d :: rest) = (pre ++ [d], .error e)) ∧
    (∀ (E A : Type) (f : Dataset → Except E A) (ds : List Dataset),
        (∀ d ∈ ds, ∃ a, f d = .ok a) →
        (run_pipeline f ds).1 = ds ∧
          ∃ as, (run_pipeline f ds).2 = .ok as ∧ as.length = ds.length) ∧
    (∀ (E A : Type) (f : Dataset → Except E A) (ds : List Dataset) (as : List A),
        (run_pipeline f ds).2 = .ok as → ∀ d ∈ ds, ∃ a, f d = .ok a) := by
  refine ⟨?_, ?_, ?_⟩
  · intro E A f pre
    induction pre with
    | nil =>
        intro d rest e _ hd
        simp [run_pipeline, hd]
    | cons x pre2 ih =>
        intro d rest e hpre hd
        obtain ⟨a, ha⟩ := hpre x (List.mem_cons_self x pre2)
        have hrec := ih d rest e (fun y hy => hpre y (List.mem_cons_of_mem x hy)) hd
        simp [run_pipeline, ha, hrec, Except.map]
  · intro E A f ds h
    induction ds with
    | nil => exact ⟨rfl, [], rfl, rfl⟩
    | cons d rest ih =>
        obtain ⟨a, ha⟩ := h d (List.mem_cons_self d rest)
        obtain ⟨h1, as, h2, h3⟩ := ih (fun x hx => h x (List.mem_cons_of_mem d hx))
        refine ⟨?_, a :: as, ?_, ?_⟩
        · simp [run_pipeline, ha, h1]
        · simp [run_pipeline, ha]
          cases hres : (run_pipeline f rest).2 with
          | error e => rw [hres] at h2; cases h2
          | ok bs => rw [hres] at h2; cases h2; rfl
        · simpa using h3
  · intro E A f ds
    induction ds with
    | nil => intro as _ d hd; cases hd
    | cons x rest ih =>
        intro as h d hd
        cases hx : f x with
        | error e => simp [run_pipeline, hx] at h
        | ok a =>
            simp only [run_pipeline, hx] at h
            cases hres : (run_pipeline f rest).2 with
            | error e => simp [hres, Except.map] at h
            | ok bs =>
                rcases List.mem_cons.1 hd with rfl | hd2
                · exact ⟨a, hx⟩
                · exact ih bs hres d hd2

/-- C1, witness for the amended theorem at concrete inputs: a failure on
the second of the three configured datasets aborts with exactly the
first two attempted, the all-success run attempts every dataset, and
from the all-success run's collected outcomes the converse direction
recovers a per-dataset success. -/
theorem run_pipeline_c1_witness :
    run_pipeline failOn2024
        ([⟨2023, "FINISHED", "PL"⟩] ++ Dataset.mk 2024 "FINISHED" "PL" :: [⟨2025, "FINISHED", "PL"⟩]) =
      ([⟨2023, "FINISHED", "PL"⟩] ++ [⟨2024, "FINISHED", "PL"⟩],
        .error "HTTP 500 while fetching dataset") ∧
    ((run_pipeline stageOk DATASETS).1 = DATASETS ∧
      ∃ as, (run_pipeline stageOk DATASETS).2 = .ok as ∧ as.length = DATASETS.length) ∧
    (∃ a, stageOk ⟨2024, "FINISHED", "PL"⟩ = .ok a) :=
  ⟨run_pipeline_c1_amended.1 String Unit failOn2024 [⟨2023, "FINISHED", "PL"⟩]
      ⟨2024, "FINISHED", "PL"⟩ [⟨2025, "FINISHED", "PL"⟩] "HTTP 500 while fetching dataset"
      (by
        intro x hx
        rw [List.mem_singleton] at hx
        subst hx
        exact ⟨(), rfl⟩)
      rfl,
    run_pipeline_c1_amended.2.1 String Nat stageOk DATASETS (fun _ _ => ⟨0, rfl⟩),
    run_pipeline_c1_amended.2.2 String Nat stageOk DATASETS [0, 0, 0] rfl
      ⟨2024, "FINISHED", "PL"⟩ (by decide)⟩

/-! ### C3 — `_last_request_ts` update on success and failure -/

/-- C3, counterexample.  The claim says the last-issued timestamp is
updated to the completion time of the request even on a request timeout.
On the code, `session.get` raises before `self._last_request_ts =
time.time()` is reached, so after a timed-out call completing at
instant 9 the timestamp still holds its previous value 5. -/
theorem clientGet_c3_counterexample :
    (clientGet ⟨62/10, some 5⟩ 9 .transportError).2.last_request_ts = some 5 ∧
    some (5 : ℚ) ≠ some (9 : ℚ) := by
  refine ⟨rfl, by decide⟩

/-- C3, amended.  The timestamp is updated to the request's completion
instant whenever `session.get` returns a response — including non-2xx
responses, for which `raise_for_status` raises only after the update —
but a transport failure (timeout, connection error) raises inside
`session.get` and leaves the whole client state, in particular the
timestamp, unchanged. -/
theorem clientGet_c3_amended :
    (∀ (st : ClientState) (t : ℚ) (code : Nat) (body : Json),
        (clientGet st t (.response code body)).2.last_request_ts = some t) ∧
    (∀ (st : ClientState) (t : ℚ), (clientGet st t .transportError).2 = st) :=
  ⟨fun _ _ _ _ => rfl, fun _ _ => rfl⟩

/-! ### C9 — `to_query` translation -/

/-- C9.  `to_query` always emits `season` and `status` (first, in this
order), emits `dateFrom`/`dateTo` only when the corresponding optional
field is present (a `None` field never yields a key, so no key is ever
emitted with a null value), and forwards no other field: every key is
one of the four, so in particular the competition code never appears. -/
theorem to_query_c9 :
    (∀ p : PremierLeagueFetchParams,
        p.to_query.take 2 = [("season", QueryVal.int p.season), ("status", QueryVal.str p.status)]) ∧
    (∀ p : PremierLeagueFetchParams, p.date_from = none → ∀ v, ("dateFrom", v) ∉ p.to_query) ∧
    (∀ p : PremierLeagueFetchParams, p.date_to = none → ∀ v, ("dateTo", v) ∉ p.to_query) ∧
    (∀ (p : PremierLeagueFetchParams) (v : QueryVal), ("dateFrom", v) ∈ p.to_query →
        ∃ s, p.date_from = some s ∧ v = QueryVal.str s) ∧
    (∀ (p : PremierLeagueFetchParams) (v : QueryVal), ("dateTo", v) ∈ p.to_query →
        ∃ s, p.date_to = some s ∧ v = QueryVal.str s) ∧
    (∀ (p : PremierLeagueFetchParams) (kv : String × QueryVal), kv ∈ p.to_query →
        kv.1 = "season" ∨ kv.1 = "status" ∨ kv.1 = "dateFrom" ∨ kv.1 = "dateTo") ∧
    (PremierLeagueFetchParams.to_query ⟨2023, "FINISHED", none, none, "PL"⟩ =
        [("season", QueryVal.int 2023), ("status", QueryVal.str "FINISHED")]) := by
  refine ⟨?_, ?_, ?_, ?_, ?_, ?_, rfl⟩
  · intro p
    cases hdf : p.date_from with
    | none =>
        cases hdt : p.date_to with
        | none => simp [PremierLeagueFetchParams.to_query, hdf, hdt]
        | some t => by_cases ht : t = "" <;>
            simp [PremierLeagueFetchParams.to_query, hdf, hdt, ht]
    | some s =>
        cases hdt : p.date_to with
        | none => by_cases hs : s = "" <;>
            simp [PremierLeagueFetchParams.to_query, hdf, hdt, hs]
        | some t => by_cases hs : s = "" <;> by_cases ht : t = "" <;>
            simp [PremierLeagueFetchParams.to_query, hdf, hdt, hs, ht]
  · intro p hdf v
    cases hdt : p.date_to with
    | none => simp [PremierLeagueFetchParams.to_query, hdf, hdt]
    | some t => by_cases ht : t = "" <;>
        simp [PremierLeagueFetchParams.to_query, hdf, hdt, ht]
  · intro p hdt v
    cases hdf : p.date_from with
    | none => simp [PremierLeagueFetchParams.to_query, hdf, hdt]
    | some s => by_cases hs : s = "" <;>
        simp [PremierLeagueFetchParams.to_query, hdf, hdt, hs]
  · intro p v hmem
    cases hdf : p.date_from with
    | none =>
        exfalso
        cases hdt : p.date_to with
        | none => simp [PremierLeagueFetchParams.to_query, hdf, hdt] at hmem
        | some t => by_cases ht : t = "" <;>
            simp [PremierLeagueFetchParams.to_query, hdf, hdt, ht] at hmem
    | some s =>
        refine ⟨s, rfl, ?_⟩
        cases hdt : p.date_to with
        | none => by_cases hs : s = "" <;>
            simp [PremierLeagueFetchParams.to_query, hdf, hdt, hs] at hmem <;> tauto
        | some t => by_cases hs : s = "" <;> by_cases ht : t = "" <;>
            simp [PremierLeagueFetchParams.to_query, hdf, hdt, hs, ht] at hmem <;> tauto
  · intro p v hmem
    cases hdt : p.date_to with
    | none =>
        exfalso
        cases hdf : p.date_from with
        | none => simp [PremierLeagueFetchParams.to_query, hdf, hdt] at hmem
        | some s => by_cases hs : s = "" <;>
            simp [PremierLeagueFetchParams.to_query, hdf, hdt, hs] at hmem
    | some t =>
        refine ⟨t, rfl, ?_⟩
        cases hdf : p.date_from with
        | none => by_cases ht : t = "" <;>
            simp [PremierLeagueFetchParams.to_query, hdf, hdt, ht] at hmem <;> tauto
        | some s => by_cases hs : s = "" <;> by_cases ht : t = "" <;>
            simp [PremierLeagueFetchParams.to_query, hdf, hdt, hs, ht] at hmem <;> tauto
  · intro p kv hmem
    cases hdf : p.date_from with
    | none =>
        cases hdt : p.date_to with
        | none =>
            simp [PremierLeagueFetchParams.to_query, hdf, hdt] at hmem
            rcases hmem with rfl | rfl <;> simp
        | some t =>
            by_cases ht : t = "" <;>
              simp [PremierLeagueFetchParams.to_query, hdf, hdt, ht] at hmem
            · rcases hmem with rfl | rfl <;> simp
            · rcases hmem with rfl | rfl | rfl <;> simp
    | some s =>
        by_cases hs : s = ""
        · cases hdt : p.date_to with
          | none =>
              simp [PremierLeagueFetchParams.to_query, hdf, hdt, hs] at hmem
              rcases hmem with rfl | rfl <;> simp
          | some t =>
              by_cases ht : t = "" <;>
                simp [PremierLeagueFetchParams.to_query, hdf, hdt, hs, ht] at hmem
              · rcases hmem with rfl | rfl <;> simp
              · rcases hmem with rfl | rfl | rfl <;> simp
        · cases hdt : p.date_to with
          | none =>
              simp [PremierLeagueFetchParams.to_query, hdf, hdt, hs] at hmem
              rcases hmem with rfl | rfl | rfl <;> simp
          | some t =>
              by_cases ht : t = "" <;>
                simp [PremierLeagueFetchParams.to_query, hdf, hdt, hs, ht] at hmem
              · rcases hmem with rfl | rfl | rfl <;> simp
              · rcases hmem with rfl | rfl | rfl | rfl <;> simp

/-- C9, witness: a present `date_from` is traced back by the theorem,
and an absent one is proved never emitted, at concrete parameters. -/
theorem to_query_c9_witness :
    (∃ s, (PremierLeagueFetchParams.mk 2024 "SCHEDULED" (some "2024-08-01") none "PL").date_from =
        some s ∧ QueryVal.str "2024-08-01" = QueryVal.str s) ∧
    ("dateFrom", QueryVal.str "2099-01-01") ∉
      (PremierLeagueFetchParams.mk 2023 "FINISHED" none none "PL").to_query :=
  ⟨to_query_c9.2.2.2.1 ⟨2024, "SCHEDULED", some "2024-08-01", none, "PL"⟩
      (QueryVal.str "2024-08-01") (by decide),
    to_query_c9.2.1 ⟨2023, "FINISHED", none, none, "PL"⟩ rfl (QueryVal.str "2099-01-01")⟩

/-! ### C5 — `flatten_json` -/

/-- The items-accumulating loop over an object's fields equals a left
fold of `dict.update` over the flattened children. -/
theorem flattenFields_eq_foldl (fields : List (String × Json)) (pfx : String)
    (items : List (String × Json)) :
    flattenFields fields pfx items =
      (fields.map (fun kv => flatten_json kv.2 (dotJoin pfx kv.1))).foldl dictUpdate items := by
  induction fields generalizing items with
  | nil => simp [flattenFields]
  | cons kv rest ih =>
      obtain ⟨k, v⟩ := kv
      simp only [flattenFields, List.map_cons, List.foldl_cons]
      exact ih _

/-- C5.  `flatten_json` is total (it is a terminating function on every
JSON tree) and satisfies: an object flattens to the dict-union of its
flattened children under dot-joined prefixes; a sequence under a
non-empty prefix is one cell holding its `json.dumps` serialisation
(never destructured); a scalar under a non-empty prefix is emitted
as-is; and a bare top-level scalar or sequence (empty, falsy prefix)
yields the empty mapping.  The concrete example `[1, 2]` serialises to
the string `"[1, 2]"`. -/
theorem flatten_json_c5 :
    (∀ (fields : List (String × Json)) (pfx : String),
        flatten_json (.obj fields) pfx =
          (fields.map (fun kv => flatten_json kv.2 (dotJoin pfx kv.1))).foldl dictUpdate []) ∧
    (∀ (xs : List Json) (pfx : String), pfx ≠ "" →
        flatten_json (.arr xs) pfx = [(pfx, .str (json_dumps (.arr xs)))]) ∧
    (∀ (j : Json) (pfx : String), j.isScalar = true → pfx ≠ "" →
        flatten_json j pfx = [(pfx, j)]) ∧
    (∀ j : Json, j.isScalar = true ∨ (∃ xs, j = .arr xs) → flatten_json j "" = []) ∧
    (flatten_json (.arr [.num 1, .num 2]) "goals" = [("goals", .str "[1, 2]")]) := by
  refine ⟨?_, ?_, ?_, ?_, ?_⟩
  · intro fields pfx
    simp only [flatten_json]
    exact flattenFields_eq_foldl fields pfx []
  · intro xs pfx h
    simp [flatten_json, h]
  · intro j pfx hs h
    cases j <;> simp_all [flatten_json, Json.isScalar]
  · intro j hj
    rcases hj with hs | ⟨xs, rfl⟩
    · cases j <;> simp_all [flatten_json, Json.isScalar]
    · simp [flatten_json]
  · simp [flatten_json, json_dumps, dumpsArr, intToString, natDigits]
    decide

/-- C5, witness: the hypotheses of the scalar and sequence clauses are
discharged at concrete inputs. -/
theorem flatten_json_c5_witness :
    flatten_json (.str "HOME_TEAM") "score.winner" = [("score.winner", .str "HOME_TEAM")] ∧
    flatten_json (.arr [.num 7]) "goals" = [("goals", .str (json_dumps (.arr [.num 7])))] :=
  ⟨flatten_json_c5.2.2.1 (.str "HOME_TEAM") "score.winner" rfl (by decide),
    flatten_json_c5.2.1 [.num 7] "goals" (by decide)⟩

/-! ### C6 — `matches_to_csv` column order and degenerate shapes -/

/-- The insert-if-unseen fold of `matches_to_csv` equals first-seen
deduplication of the keys not already recorded. -/
theorem foldl_insertUnseen_eq (ks : List String) (acc : List String) :
    ks.foldl (fun a k => if k ∈ a then a else a ++ [k]) acc =
      acc ++ firstSeenDedup (ks.filter (fun k => k ∉ acc)) := by
  induction ks generalizing acc with
  | nil => simp [firstSeenDedup]
  | cons k rest ih =>
      by_cases hk : k ∈ acc
      · simpa [hk, List.filter_cons] using ih acc
      · have hfilter : (rest.filter (fun x => x ∉ acc ++ [k])) =
            (rest.filter (fun x => x ∉ acc)).filter (fun x => x ≠ k) := by
          rw [List.filter_filter]
          apply List.filter_congr
          intro x _
          by_cases h1 : x ∈ acc <;> by_cases h2 : x = k <;>
            simp [h1, h2, List.mem_append]
        rw [List.foldl_cons, if_neg hk, ih (acc ++ [k]), hfilter,
          List.filter_cons]
        simp [hk, firstSeenDedup]

/-- The fieldname scan of `matches_to_csv` computes first-seen key order
over the concatenation of the rows' key lists. -/
theorem firstSeenFields_eq_dedup (rows : List (List (String × Json))) :
    firstSeenFields rows = firstSeenDedup ((rows.map (List.map Prod.fst)).flatten) := by
  have step : ∀ (acc : List String) (row : List (String × Json)),
      row.foldl (fun acc2 kv => if kv.1 ∈ acc2 then acc2 else acc2 ++ [kv.1]) acc =
        (row.map Prod.fst).foldl (fun a k => if k ∈ a then a else a ++ [k]) acc := by
    intro acc row
    rw [List.foldl_map]
  have main : ∀ (rows : List (List (String × Json))) (acc : List String),
      rows.foldl (fun acc row =>
          row.foldl (fun acc2 kv => if kv.1 ∈ acc2 then acc2 else acc2 ++ [kv.1]) acc) acc =
        ((rows.map (List.map Prod.fst)).flatten).foldl
          (fun a k => if k ∈ a then a else a ++ [k]) acc := by
    intro rows
    induction rows with
    | nil => intro acc; rfl
    | cons row rest ih =>
        intro acc
        simp only [List.map_cons, List.flatten_cons, List.foldl_append, List.foldl_cons]
        rw [step, ih]
  have := main rows []
  rw [firstSeenFields, this, foldl_insertUnseen_eq, List.nil_append]
  congr 1
  apply List.filter_eq_self.2
  intro a _
  simp

/-- C6.  The writer's column order is exactly the distinct keys in
first-seen order (rows in input order, keys within a row in their own
order); every row is written positionally against that order with
`row.get`, a missing key yielding the empty cell; the empty row list
yields the explicitly empty artifact; and a payload without a
`"matches"` key supplies zero records. -/
theorem matches_to_csv_c6 :
    (rowsToCsv [] = .empty) ∧
    (∀ rows : List (List (String × Json)), rows ≠ [] →
        rowsToCsv rows =
          .table (firstSeenDedup ((rows.map (List.map Prod.fst)).flatten))
            (rows.map (fun row =>
              (firstSeenDedup ((rows.map (List.map Prod.fst)).flatten)).map (rowGet row)))) ∧
    (∀ (row : List (String × Json)) (k : String), k ∉ row.map Prod.fst → rowGet row k = none) ∧
    (∀ fields : List (String × Json), "matches" ∉ fields.map Prod.fst →
        payloadMatches (.obj fields) = .arr []) ∧
    (matches_to_csv [] = .empty) := by
    refine ⟨rfl, ?_, ?_, ?_, rfl⟩
    · intro rows h
      rw [rowsToCsv]
      simp only [List.isEmpty_iff, h, if_false, firstSeenFields_eq_dedup]
    · intro row k hk
      have h : row.find? (fun kv => kv.1 = k) = none := by
        apply List.find?_eq_none.2
        intro kv hkv
        simp only [decide_eq_true_eq]
        intro heq
        exact hk (heq ▸ List.mem_map_of_mem Prod.fst hkv)
      rw [rowGet, h]
      rfl
    · intro fields hf
      have h : fields.find? (fun kv => kv.1 = "matches") = none := by
        apply List.find?_eq_none.2
        intro kv hkv
        simp only [decide_eq_true_eq]
        intro heq
        exact hf (heq ▸ List.mem_map_of_mem Prod.fst hkv)
      rw [payloadMatches, h]
      rfl

/-- C6, witness: the positional-table clause applied to two concrete
rows with differing key sets, and the missing-key clause at a concrete
row. -/
theorem matches_to_csv_c6_witness :
    rowsToCsv [[("id", .num 1), ("a", .num 2)], [("b", .num 3), ("a", .num 4)]] =
      .table ["id", "a", "b"]
        [[some (.num 1), some (.num 2), none], [none, some (.num 4), some (.num 3)]] ∧
    rowGet [("id", Json.num 1), ("a", Json.num 2)] "b" = none := by
  constructor
  · have h := matches_to_csv_c6.2.1 [[("id", .num 1), ("a", .num 2)], [("b", .num 3), ("a", .num 4)]]
      (by simp)
    rw [h]
    simp [firstSeenDedup, rowGet]
  · exact matches_to_csv_c6.2.2.1 [("id", .num 1), ("a", .num 2)] "b" (by decide)

/-! ### C4 — rate limiting across sequential calls -/

/-- Pacing invariant: starting from a recorded timestamp `t` equal to
the previous completion instant, a valid all-response trace finishes no
earlier than `t` plus one minimum interval per call. -/
theorem validRun_response_bound (events : List CallEvent) :
    ∀ (m t : ℚ), (∀ e ∈ events, e.outcome.isResponse = true) →
      validRun ⟨m, some t⟩ t events = true →
      t + events.length * m ≤ lastCompletion t events := by
  induction events with
  | nil => intro m t _ _; simp [lastCompletion]
  | cons e rest ih =>
      intro m t hresp hv
      simp only [validRun, Bool.and_eq_true, decide_eq_true_eq] at hv
      obtain ⟨⟨h1, h2⟩, h3⟩ := hv
      have hre := hresp e (List.mem_cons_self e rest)
      cases ho : e.outcome with
      | transportError => rw [ho] at hre; cases hre
      | response code body =>
          rw [ho] at h3
          have hstate : (clientGet ⟨m, some t⟩ e.tComplete (.response code body)).2 =
              ⟨m, some e.tComplete⟩ := rfl
          rw [hstate] at h3
          have hkey : t + m ≤ e.tComplete := by
            simp only [sleepDuration] at h2
            by_cases hc : e.tEntry - t < m
            · rw [if_pos hc] at h2; linarith
            · rw [if_neg hc] at h2; push_neg at hc; linarith
          have hrest := ih m e.tComplete (fun x hx => hresp x (List.mem_cons_of_mem e hx)) h3
          have hlast : lastCompletion t (e :: rest) = lastCompletion e.tComplete rest := rfl
          rw [hlast]
          simp only [List.length_cons]
          push_cast
          push_cast at hrest
          linarith

/-- C4, amended.  For `N ≥ 1` sequential calls that all receive an HTTP
response, total elapsed wall time from the first call's entry to the
last call's completion is at least `(N-1) × min_interval_seconds`; on
each call the client blocks for the remaining part of the interval
(`sleepDuration`) before issuing the request.  (The unamended claim
over-counts calls whose transport fails: those never update
`_last_request_ts`, see the counterexample.) -/
theorem validRun_c4_amended :
    ∀ (m : ℚ) (e : CallEvent) (rest : List CallEvent),
      (∀ ev ∈ e :: rest, ev.outcome.isResponse = true) →
      validRun ⟨m, none⟩ e.tEntry (e :: rest) = true →
      e.tEntry + (rest.length : ℚ) * m ≤ lastCompletion e.tEntry (e :: rest) := by
  intro m e rest hresp hv
  simp only [validRun, Bool.and_eq_true, decide_eq_true_eq] at hv
  obtain ⟨⟨h1, h2⟩, h3⟩ := hv
  have hre := hresp e (List.mem_cons_self e rest)
  cases ho : e.outcome with
  | transportError => rw [ho] at hre; cases hre
  | response code body =>
      rw [ho] at h3
      have hstate : (clientGet ⟨m, none⟩ e.tComplete (.response code body)).2 =
          ⟨m, some e.tComplete⟩ := rfl
      rw [hstate] at h3
      have hfirst : e.tEntry ≤ e.tComplete := by
        simp only [sleepDuration] at h2
        linarith
      have hrest := validRun_response_bound rest m e.tComplete
        (fun x hx => hresp x (List.mem_cons_of_mem e hx)) h3
      have hlast : lastCompletion e.tEntry (e :: rest) = lastCompletion e.tComplete rest := rfl
      rw [hlast]
      linarith

/-- C4, witness: two sequential successful calls at instants forced
apart by the sleep, with the bound instantiated by the theorem. -/
theorem validRun_c4_witness :
    (0 : ℚ) + ((List.length [CallEvent.mk 1 (38/5) (.response 200 .null)] : ℕ) : ℚ) * (31/5) ≤
      lastCompletion 0
        [CallEvent.mk 0 1 (.response 200 .null), CallEvent.mk 1 (38/5) (.response 200 .null)] :=
  validRun_c4_amended (31/5) ⟨0, 1, .response 200 .null⟩
    [⟨1, 38/5, .response 200 .null⟩]
    (by intro ev hev
        simp only [List.mem_cons, List.not_mem_nil, or_false] at hev
        rcases hev with rfl | rfl <;> rfl)
    (by simp only [validRun, sleepDuration, clientGet, Bool.and_eq_true, decide_eq_true_eq]
        norm_num)

/-- C4, counterexample to the unamended claim.  A valid three-call trace
(with `min_interval = 31/5 = 6.2`) in which the second call fails in
transport instantaneously (e.g. connection refused): because the failed
call never updates `_last_request_ts`, the third call proceeds without
sleeping and the whole run elapses `31/5 < (3-1) × 31/5` — the claimed
`(N-1) × min_interval` lower bound is violated. -/
theorem validRun_c4_counterexample :
    validRun ⟨31/5, none⟩ 0
      [CallEvent.mk 0 0 (.response 200 .null), CallEvent.mk 0 (31/5) .transportError,
        CallEvent.mk (31/5) (31/5) (.response 200 .null)] = true ∧
    List.length [CallEvent.mk 0 0 (.response 200 .null), CallEvent.mk 0 (31/5) .transportError,
        CallEvent.mk (31/5) (31/5) (.response 200 .null)] = 3 ∧
    lastCompletion 0
      [CallEvent.mk 0 0 (.response 200 .null), CallEvent.mk 0 (31/5) .transportError,
        CallEvent.mk (31/5) (31/5) (.response 200 .null)] - 0 <
      (3 - 1 : ℚ) * (31/5) := by
  refine ⟨?_, rfl, ?_⟩
  · simp only [validRun, sleepDuration, clientGet, Bool.and_eq_true, decide_eq_true_eq]
    norm_num
  · simp only [lastCompletion]
    norm_num

/-! ### C2 — raw JSON artifact paths -/

/-- Decimal digit lists are nonempty. -/
theorem natDigits_ne_nil (n : Nat) : natDigits n ≠ [] := by
  rw [natDigits]
  split
  · simp
  · simp

/-- Every character of a decimal digit list is a digit. -/
theorem natDigits_all_digit : ∀ n : Nat, ∀ c ∈ natDigits n, c.isDigit = true := by
  intro n
  induction n using Nat.strong_induction_on with
  | _ n ih =>
      rw [natDigits]
      split
      · next h =>
          intro c hc
          rw [List.mem_singleton] at hc
          subst hc
          have hdig : ∀ m, m < 10 → (digitCh m).isDigit = true := by decide
          exact hdig n h
      · next h =>
          intro c hc
          rw [List.mem_append] at hc
          rcases hc with hc | hc
          · exact ih (n / 10) (Nat.div_lt_self (by omega) (by omega)) c hc
          · rw [List.mem_singleton] at hc
            subst hc
            have hdig : ∀ m, m < 10 → (digitCh m).isDigit = true := by decide
            exact hdig (n % 10) (Nat.mod_lt _ (by omega))

/-- Instantiable unfolding of `natDigits`. -/
theorem natDigits_eq (n : Nat) :
    natDigits n = if _h : n < 10 then [digitCh n] else natDigits (n / 10) ++ [digitCh (n % 10)] := by
  rw [natDigits]

/-- Strings with equal character data are equal. -/
theorem string_ext {a b : String} (h : a.data = b.data) : a = b := by
  cases a; cases b; simp_all

/-- Decimal rendering of naturals is injective. -/
theorem natDigits_inj : ∀ m n : Nat, natDigits m = natDigits n → m = n := by
  intro m
  induction m using Nat.strong_induction_on with
  | _ m ih =>
      intro n h
      rw [natDigits_eq m, natDigits_eq n] at h
      by_cases hm : m < 10 <;> by_cases hn : n < 10
      · rw [dif_pos hm, dif_pos hn] at h
        have h' : digitCh m = digitCh n := by simpa using h
        have hinj : ∀ a, a < 10 → ∀ b, b < 10 → digitCh a = digitCh b → a = b := by decide
        exact hinj m hm n hn h'
      · exfalso
        rw [dif_pos hm, dif_neg hn] at h
        have hlen := congrArg List.length h
        simp only [List.length_append, List.length_singleton] at hlen
        have h0 : (natDigits (n / 10)).length = 0 := by omega
        exact natDigits_ne_nil (n / 10) (List.length_eq_zero.1 h0)
      · exfalso
        rw [dif_neg hm, dif_pos hn] at h
        have hlen := congrArg List.length h
        simp only [List.length_append, List.length_singleton] at hlen
        have h0 : (natDigits (m / 10)).length = 0 := by omega
        exact natDigits_ne_nil (m / 10) (List.length_eq_zero.1 h0)
      · rw [dif_neg hm, dif_neg hn] at h
        obtain ⟨h1, h2⟩ := List.append_inj' h rfl
        have hd : digitCh (m % 10) = digitCh (n % 10) := by simpa using h2
        have hinj : ∀ a, a < 10 → ∀ b, b < 10 → digitCh a = digitCh b → a = b := by decide
        have hmod : m % 10 = n % 10 :=
          hinj _ (Nat.mod_lt _ (by omega)) _ (Nat.mod_lt _ (by omega)) hd
        have hdiv : m / 10 = n / 10 :=
          ih (m / 10) (Nat.div_lt_self (by omega) (by omega)) (n / 10) h1
        omega

/-- Decimal digit lists never contain an underscore. -/
theorem natDigits_no_underscore (n : Nat) : '_' ∉ natDigits n := fun hmem =>
  absurd (natDigits_all_digit n '_' hmem) (by decide)

/-- Integer renderings never contain an underscore. -/
theorem intToString_no_underscore (i : Int) : '_' ∉ (intToString i).data := by
  rw [intToString]
  split
  · rw [String.data_append]
    intro hmem
    rw [List.mem_append] at hmem
    rcases hmem with hmem | hmem
    · simp at hmem
    · exact natDigits_no_underscore _ hmem
  · exact natDigits_no_underscore _

/-- Instantiable characterization of the data of `intToString`. -/
theorem intToString_data (i : Int) :
    (intToString i).data =
      if i < 0 then '-' :: natDigits i.natAbs else natDigits i.natAbs := by
  rw [intToString]
  split
  · rfl
  · rfl

/-- Python `str` is injective on integers. -/
theorem intToString_inj : ∀ i j : Int, intToString i = intToString j → i = j := by
  intro i j h
  have hd := congrArg String.data h
  rw [intToString_data i, intToString_data j] at hd
  by_cases hi : i < 0 <;> by_cases hj : j < 0
  · rw [if_pos hi, if_pos hj] at hd
    have habs := natDigits_inj _ _ (by simpa using hd)
    omega
  · exfalso
    rw [if_pos hi, if_neg hj] at hd
    have hmem : '-' ∈ natDigits j.natAbs := by
      rw [← hd]
      exact List.mem_cons_self _ _
    exact absurd (natDigits_all_digit _ '-' hmem) (by decide)
  · exfalso
    rw [if_neg hi, if_pos hj] at hd
    have hmem : '-' ∈ natDigits i.natAbs := by
      rw [hd]
      exact List.mem_cons_self _ _
    exact absurd (natDigits_all_digit _ '-' hmem) (by decide)
  · rw [if_neg hi, if_neg hj] at hd
    have habs := natDigits_inj _ _ hd
    omega

/-- Splitting at the first underscore: when neither left part contains
an underscore, equal concatenations force equal parts. -/
theorem split_at_underscore : ∀ (l1 l2 r1 r2 : List Char),
    '_' ∉ l1 → '_' ∉ l2 → l1 ++ '_' :: r1 = l2 ++ '_' :: r2 → l1 = l2 ∧ r1 = r2 := by
  intro l1
  induction l1 with
  | nil =>
      intro l2 r1 r2 _ h2 h
      cases l2 with
      | nil => simpa using h
      | cons c cs =>
          exfalso
          simp only [List.nil_append, List.cons_append, List.cons.injEq] at h
          apply h2
          rw [← h.1]
          exact List.mem_cons_self _ _
  | cons a as ih =>
      intro l2 r1 r2 h1 h2 h
      cases l2 with
      | nil =>
          exfalso
          simp only [List.nil_append, List.cons_append, List.cons.injEq] at h
          apply h1
          rw [h.1]
          exact List.mem_cons_self _ _
      | cons b bs =>
          simp only [List.cons_append, List.cons.injEq] at h
          obtain ⟨hab, hrest⟩ := h
          have h1' : '_' ∉ as := fun hx => h1 (List.mem_cons_of_mem a hx)
          have h2' : '_' ∉ bs := fun hx => h2 (List.mem_cons_of_mem b hx)
          obtain ⟨hl, hr⟩ := ih bs r1 r2 h1' h2' hrest
          refine ⟨?_, hr⟩
          rw [hab, hl]

/-- Left cancellation for string concatenation. -/
theorem strAppend_left_cancel {a b c : String} (h : a ++ b = a ++ c) : b = c := by
  have hd := congrArg String.data h
  rw [String.data_append, String.data_append] at hd
  have hbc := List.append_cancel_left hd
  cases b; cases c; simp_all

/-- C2, counterexample.  The claim says the raw JSON filename starts
with the lowercased resource code and that fetches differing in any of
the three parameters write to distinct paths.  On the code the stem is
the hard-coded `premier_league`: two fetches differing only in the
competition code write to the same path, and the concrete filename for
`("PL", 2023, "FINISHED")` is `premier_league_2023_finished.json`, not
`pl_2023_finished.json`. -/
theorem build_output_path_c2_counterexample :
    build_output_path "data/raw/football_data" ⟨2023, "FINISHED", none, none, "PL"⟩ =
      build_output_path "data/raw/football_data" ⟨2023, "FINISHED", none, none, "BL1"⟩ ∧
    ("PL" : String) ≠ "BL1" ∧
    build_output_path "data/raw/football_data" ⟨2023, "FINISHED", none, none, "PL"⟩ =
      "data/raw/football_data/premier_league_2023_finished.json" := by
  refine ⟨rfl, by decide, ?_⟩
  simp [build_output_path, intToString, natDigits, strLower]
  decide

/-- C2, amended.  The raw JSON path is deterministic in `(season,
status)` alone: it is `output_dir / premier_league_{season}_{status
lowercased}.json`, so fetches with identical parameters overwrite, the
resource code never influences the path, and two fetches write to
distinct paths exactly when they differ in season or in lowercased
status. -/
theorem build_output_path_c2_amended :
    (∀ (dir : String) (p : PremierLeagueFetchParams),
        build_output_path dir p =
          dir ++ "/" ++ ("premier_league_" ++ intToString p.season ++ "_" ++
            strLower p.status ++ ".json")) ∧
    (∀ (dir : String) (p q : PremierLeagueFetchParams),
        build_output_path dir p = build_output_path dir q ↔
          p.season = q.season ∧ strLower p.status = strLower q.status) := by
  refine ⟨fun _ _ => rfl, ?_⟩
  intro dir p q
  constructor
  · intro h
    rw [build_output_path, build_output_path] at h
    have h1 := strAppend_left_cancel h
    have hd := congrArg String.data h1
    simp only [String.data_append] at hd
    simp only [List.append_assoc, List.singleton_append] at hd
    have hcancel := List.append_cancel_left hd
    obtain ⟨hseason, hstatus⟩ := split_at_underscore _ _ _ _
      (intToString_no_underscore p.season) (intToString_no_underscore q.season) hcancel
    constructor
    · exact intToString_inj _ _ (string_ext hseason)
    · exact string_ext (List.append_cancel_right hstatus)
  · intro ⟨h1, h2⟩
    rw [build_output_path, build_output_path, h1, h2]


/-! ### standardize_types machinery -/

theorem exBind_assoc {α β γ : Type} (x : Except StdError α) (f : α → Except StdError β)
    (g : β → Except StdError γ) :
    exBind (exBind x f) g = exBind x (fun a => exBind (f a) g) := by
  cases x <;> rfl

theorem exBind_ok_right {α : Type} (x : Except StdError α) :
    exBind x (fun a => Except.ok a) = x := by
  cases x <;> rfl

theorem mapMExcept_ok_id {α : Type} (g : α → Except StdError α) (l : List α)
    (h : ∀ a ∈ l, g a = .ok a) : mapMExcept g l = .ok l := by
  induction l with
  | nil => rfl
  | cons a rest ih =>
      simp only [mapMExcept, h a (List.mem_cons_self a rest),
        ih (fun x hx => h x (List.mem_cons_of_mem a hx))]

theorem applyCol_eq_map (df : DataFrame) (col : String) (f : List Cell → List Cell) :
    applyCol df col f = df.map (fun c => if c.1 = col then (c.1, f c.2) else c) := by
  by_cases h : dfContains df col = true
  · rw [applyCol, if_pos h]
  · rw [applyCol, if_neg h]
    have hall : ∀ c ∈ df, ¬(c.1 = col) := by
      intro c hc hceq
      apply h
      rw [dfContains, List.any_eq_true]
      exact ⟨c, hc, by simp [hceq]⟩
    conv_lhs => rw [← List.map_id df]
    apply List.map_congr_left
    intro c hc
    simp [hall c hc]

theorem applyColM_eq_mapM (df : DataFrame) (col : String)
    (f : List Cell → Except StdError (List Cell)) :
    applyColM df col f =
      mapMExcept (fun c => if c.1 = col then (f c.2).map (fun cells => (c.1, cells)) else .ok c) df := by
  by_cases h : dfContains df col = true
  · rw [applyColM, if_pos h]
  · rw [applyColM, if_neg h]
    symm
    apply mapMExcept_ok_id
    intro c hc
    have hne : ¬(c.1 = col) := by
      intro hceq
      apply h
      rw [dfContains, List.any_eq_true]
      exact ⟨c, hc, by simp [hceq]⟩
    simp [hne]

theorem mapMExcept_map {α β γ : Type} (f : α → β) (g : β → Except StdError γ) (l : List α) :
    mapMExcept g (l.map f) = mapMExcept (fun a => g (f a)) l := by
  induction l with
  | nil => rfl
  | cons a rest ih => simp only [List.map_cons, mapMExcept, ih]

theorem mapMExcept_ok_map {α β : Type} (f : α → β) (l : List α) :
    mapMExcept (fun a => (Except.ok (f a) : Except StdError β)) l = .ok (l.map f) := by
  induction l with
  | nil => rfl
  | cons a rest ih => simp only [List.map_cons, mapMExcept, ih]

theorem exBind_mapMExcept_mapMExcept {α β γ : Type} (g1 : α → Except StdError β)
    (g2 : β → Except StdError γ) (l : List α) :
    exBind (mapMExcept g1 l) (mapMExcept g2) = mapMExcept (fun a => exBind (g1 a) g2) l := by
  induction l with
  | nil => rfl
  | cons a rest ih =>
      cases h1 : g1 a with
      | error e => simp [mapMExcept, exBind, h1]
      | ok b =>
          cases h2 : g2 b with
          | error e =>
              cases hrest : mapMExcept g1 rest with
              | error e2 =>
                  simp [mapMExcept, exBind, h1, h2, hrest, Subsingleton.elim e2 e]
              | ok bs =>
                  simp [mapMExcept, exBind, h1, h2, hrest]
          | ok c2 =>
              cases hrest : mapMExcept g1 rest with
              | error e2 =>
                  have ih2 := ih
                  rw [hrest] at ih2
                  simp only [exBind] at ih2
                  simp [mapMExcept, exBind, h1, h2, hrest, ← ih2]
              | ok bs =>
                  have ih2 := ih
                  rw [hrest] at ih2
                  simp only [exBind] at ih2
                  simp [mapMExcept, exBind, h1, h2, hrest, ← ih2]

theorem fuse2 {α β γ : Type} (g1 : α → Except StdError β) (g2 : β → Except StdError γ)
    {δ : Type} (k : List γ → Except StdError δ) (l : List α) :
    exBind (mapMExcept g1 l) (fun d => exBind (mapMExcept g2 d) k) =
      exBind (mapMExcept (fun a => exBind (g1 a) g2) l) k := by
  rw [← exBind_mapMExcept_mapMExcept, exBind_assoc]

theorem fuse_post {α β : Type} (g : α → Except StdError β) {γ : Type} (p : β → γ) (l : List α) :
    exBind (mapMExcept g l) (fun d => Except.ok (d.map p)) =
      mapMExcept (fun a => exBind (g a) (fun b => Except.ok (p b))) l := by
  have hfun : (fun d : List β => (Except.ok (d.map p) : Except StdError (List γ))) =
      mapMExcept (fun b => Except.ok (p b)) := by
    funext d
    rw [mapMExcept_ok_map]
  rw [hfun, exBind_mapMExcept_mapMExcept]

theorem mapMExcept_congr {α β : Type} {g g' : α → Except StdError β} (l : List α)
    (h : ∀ a, g a = g' a) : mapMExcept g l = mapMExcept g' l := by
  rw [funext h]

theorem fuse_final {α β γ : Type} (g1 : α → Except StdError β) (g2 : β → Except StdError γ)
    (l : List α) :
    exBind (mapMExcept g1 l) (fun d => mapMExcept g2 d) =
      mapMExcept (fun a => exBind (g1 a) g2) l :=
  exBind_mapMExcept_mapMExcept g1 g2 l

theorem standardize_eq_mapM (parseTs : String → Option Int) (df : DataFrame) :
    standardize_types parseTs df = mapMExcept (columnStd parseTs) df := by
  rw [standardize_types]
  simp only [applyCol_eq_map, List.map_map, applyColsM, ID_COLUMNS, TEAM_NAME_COLUMNS,
    List.foldl_cons, List.foldl_nil, applyColM_eq_mapM, mapMExcept_map, exBind_assoc,
    exBind_ok_right, fuse2, fuse_post, fuse_final]
  apply mapMExcept_congr
  intro c
  obtain ⟨k, cells⟩ := c
  by_cases h1 : k = "utcDate"
  · subst h1; simp [columnStd, exBind, Except.map, Function.comp]
  · by_cases h2 : k = "lastUpdated"
    · subst h2; simp [columnStd, exBind, Except.map, Function.comp]
    · by_cases h3 : k = "matchday"
      · subst h3
        cases hcc : convertIntColumn cells <;>
          simp [columnStd, exBind, Except.map, Function.comp, hcc]
      · by_cases h4 : k = "id"
        · subst h4
          cases hcc : convertIntColumn cells <;>
            simp [columnStd, exBind, Except.map, Function.comp, hcc]
        · by_cases h5 : k = "homeTeam.id"
          · subst h5
            cases hcc : convertIntColumn cells <;>
              simp [columnStd, exBind, Except.map, Function.comp, hcc]
          · by_cases h6 : k = "awayTeam.id"
            · subst h6
              cases hcc : convertIntColumn cells <;>
                simp [columnStd, exBind, Except.map, Function.comp, hcc]
            · by_cases h7 : k = "score.winner"
              · subst h7; simp [columnStd, exBind, Except.map, Function.comp]
              · by_cases h8 : k = "homeTeam.name"
                · subst h8; simp [columnStd, exBind, Except.map, Function.comp]
                · by_cases h9 : k = "awayTeam.name"
                  · subst h9; simp [columnStd, exBind, Except.map, Function.comp]
                  · simp [columnStd, exBind, Except.map, Function.comp, h1, h2, h3, h4, h5, h6, h7, h8, h9]

theorem exBind_eq_ok {α β : Type} {x : Except StdError α} {f : α → Except StdError β}
    {y : β} : exBind x f = Except.ok y ↔ ∃ a, x = .ok a ∧ f a = .ok y := by
  cases x <;> simp [exBind]

theorem toDatetimeCell_idem (parseTs : String → Option Int) (c : Cell) :
    toDatetimeCell parseTs (toDatetimeCell parseTs c) = toDatetimeCell parseTs c := by
  cases c with
  | str s => cases h : parseTs s <;> simp [toDatetimeCell, h]
  | na => rfl
  | int n => rfl
  | rat q => rfl
  | bool b => rfl
  | dt t => rfl

theorem intConv_stable (c c' : Cell) (h : astypeInt64Cell (toNumericCell c) = .ok c') :
    astypeInt64Cell (toNumericCell c') = .ok c' := by
  cases c with
  | na =>
      simp only [toNumericCell, astypeInt64Cell, Except.ok.injEq] at h
      subst h; rfl
  | int n =>
      simp only [toNumericCell, astypeInt64Cell, Except.ok.injEq] at h
      subst h; rfl
  | rat q =>
      by_cases hq : q.den = 1
      · simp only [toNumericCell, astypeInt64Cell, hq, if_true, Except.ok.injEq] at h
        subst h; rfl
      · simp [toNumericCell, astypeInt64Cell, hq] at h
  | str s =>
      cases hp : parseDecimal s with
      | none =>
          simp only [toNumericCell, hp, astypeInt64Cell, Except.ok.injEq] at h
          subst h; rfl
      | some q =>
          by_cases hq : q.den = 1
          · simp only [toNumericCell, hp, hq, if_true, astypeInt64Cell, Except.ok.injEq] at h
            subst h; rfl
          · simp [toNumericCell, hp, hq, astypeInt64Cell] at h
  | bool b =>
      simp only [toNumericCell, astypeInt64Cell, Except.ok.injEq] at h
      subst h; rfl
  | dt t =>
      simp only [toNumericCell, astypeInt64Cell, Except.ok.injEq] at h
      subst h; rfl

theorem mapMExcept_stable {α : Type} (g : α → Except StdError α)
    (hg : ∀ a b, g a = .ok b → g b = .ok b) :
    ∀ l l', mapMExcept g l = .ok l' → mapMExcept g l' = .ok l' := by
  intro l
  induction l with
  | nil =>
      intro l' h
      simp only [mapMExcept, Except.ok.injEq] at h
      subst h; rfl
  | cons a rest ih =>
      intro l' h
      cases ha : g a with
      | error e => simp [mapMExcept, ha] at h
      | ok b =>
          cases hrest : mapMExcept g rest with
          | error e => simp [mapMExcept, ha, hrest] at h
          | ok bs =>
              simp only [mapMExcept, ha, hrest, Except.ok.injEq] at h
              subst h
              simp [mapMExcept, hg a b ha, ih bs hrest]

theorem convertIntColumn_fused (cells : List Cell) :
    convertIntColumn cells = mapMExcept (fun c => astypeInt64Cell (toNumericCell c)) cells := by
  rw [convertIntColumn, mapMExcept_map]

theorem convertIntColumn_stable (cells cells' : List Cell)
    (h : convertIntColumn cells = .ok cells') : convertIntColumn cells' = .ok cells' := by
  rw [convertIntColumn_fused] at h ⊢
  exact mapMExcept_stable _ intConv_stable cells cells' h

theorem winnerCell_idem (c : Cell) : winnerCell (winnerCell c) = winnerCell c := by
  cases c with
  | str s =>
      cases hf : WINNER_MAP.find? (fun kv => kv.1 = s) with
      | none => simp [winnerCell, winnerMapCell, fillnaCell, hf]
      | some kv =>
          have hmem := List.mem_of_find?_eq_some hf
          have hv : kv.2 = "H" ∨ kv.2 = "A" ∨ kv.2 = "D" := by
            simp only [WINNER_MAP, List.mem_cons, List.not_mem_nil, or_false] at hmem
            rcases hmem with h | h | h <;> simp [h]
          have hstep : winnerCell (.str s) = .str kv.2 := by
            simp [winnerCell, winnerMapCell, fillnaCell, hf]
          rw [hstep]
          rcases hv with h | h | h <;> rw [h] <;>
            simp [winnerCell, winnerMapCell, fillnaCell, WINNER_MAP, List.find?]
  | na => rfl
  | int n => rfl
  | rat q => rfl
  | bool b => rfl
  | dt t => rfl

theorem collapseWs_no_ws_aux : ∀ (n : Nat) (l : List Char), l.length ≤ n →
    ∀ c ∈ collapseWs l, isPySpace c = false := by
  intro n
  induction n with
  | zero =>
      intro l hl c hc
      rw [List.length_eq_zero.1 (Nat.le_zero.1 hl)] at hc
      rw [collapseWs] at hc
      cases hc
  | succ n ih =>
      intro l hl c hc
      cases l with
      | nil => rw [collapseWs] at hc; cases hc
      | cons a rest =>
          rw [collapseWs] at hc
          simp only [List.length_cons, Nat.succ_le_succ_iff] at hl
          by_cases ha : isPySpace a = true
          · rw [if_pos ha] at hc
            rcases List.mem_cons.1 hc with rfl | hc2
            · decide
            · exact ih (rest.dropWhile isPySpace)
                (le_trans (List.dropWhile_sublist _).length_le hl) c hc2
          · rw [if_neg ha] at hc
            rcases List.mem_cons.1 hc with rfl | hc2
            · exact Bool.eq_false_iff.2 ha
            · exact ih rest hl c hc2

theorem collapseWs_no_ws (l : List Char) : ∀ c ∈ collapseWs l, isPySpace c = false :=
  collapseWs_no_ws_aux l.length l (le_refl _)

theorem noWs_dropWhile_eq (l : List Char) (h : ∀ c ∈ l, isPySpace c = false) :
    l.dropWhile isPySpace = l := by
  cases l with
  | nil => rfl
  | cons a rest =>
      rw [List.dropWhile_cons, if_neg]
      rw [h a (List.mem_cons_self a rest)]
      simp

theorem stripChars_of_noWs (l : List Char) (h : ∀ c ∈ l, isPySpace c = false) :
    stripChars l = l := by
  rw [stripChars, noWs_dropWhile_eq l h, noWs_dropWhile_eq, List.reverse_reverse]
  intro c hc
  exact h c (List.mem_reverse.1 hc)

theorem collapseWs_of_noWs : ∀ l : List Char, (∀ c ∈ l, isPySpace c = false) →
    collapseWs l = l := by
  intro l
  induction l with
  | nil => intro _; rw [collapseWs]
  | cons a rest ih =>
      intro h
      rw [collapseWs, if_neg, ih (fun c hc => h c (List.mem_cons_of_mem a hc))]
      rw [h a (List.mem_cons_self a rest)]
      simp

theorem collapse_strip_collapse (l : List Char) :
    collapseWs (stripChars (collapseWs l)) = collapseWs l := by
  rw [stripChars_of_noWs _ (collapseWs_no_ws l), collapseWs_of_noWs _ (collapseWs_no_ws l)]

theorem stripTextCell_output (c : Cell) :
    stripTextCell c = .na ∨
      ∃ x, stripTextCell c = .str (String.mk (collapseWs (stripChars x))) := by
  cases c with
  | na => exact Or.inl rfl
  | str s => exact Or.inr ⟨s.data, rfl⟩
  | int n => exact Or.inr ⟨(intToString n).data, rfl⟩
  | rat q => exact Or.inr ⟨(intToString q.num ++ "/" ++ String.mk (natDigits q.den)).data, rfl⟩
  | bool b => exact Or.inr ⟨(if b then "True" else "False" : String).data, by cases b <;> rfl⟩
  | dt t => exact Or.inr ⟨(intToString t).data, rfl⟩

theorem stripTextCell_idem (c : Cell) : stripTextCell (stripTextCell c) = stripTextCell c := by
  rcases stripTextCell_output c with h | ⟨x, h⟩
  · rw [h]; rfl
  · rw [h]
    show Cell.str (String.mk (collapseWs (stripChars (collapseWs (stripChars x))))) = _
    rw [collapse_strip_collapse]

theorem map_toDatetime_idem (parseTs : String → Option Int) (cells : List Cell) :
    (cells.map (toDatetimeCell parseTs)).map (toDatetimeCell parseTs) =
      cells.map (toDatetimeCell parseTs) := by
  rw [List.map_map]
  apply List.map_congr_left
  intro a _
  exact toDatetimeCell_idem parseTs a

theorem map_winner_idem (cells : List Cell) :
    (cells.map winnerCell).map winnerCell = cells.map winnerCell := by
  rw [List.map_map]
  apply List.map_congr_left
  intro a _
  exact winnerCell_idem a

theorem map_stripText_idem (cells : List Cell) :
    (cells.map stripTextCell).map stripTextCell = cells.map stripTextCell := by
  rw [List.map_map]
  apply List.map_congr_left
  intro a _
  exact stripTextCell_idem a

theorem map_comp_toDatetime_idem (parseTs : String → Option Int) (cells : List Cell) :
    cells.map (toDatetimeCell parseTs ∘ toDatetimeCell parseTs) =
      cells.map (toDatetimeCell parseTs) := by
  apply List.map_congr_left
  intro a _
  exact toDatetimeCell_idem parseTs a

theorem map_comp_winner_idem (cells : List Cell) :
    cells.map (winnerCell ∘ winnerCell) = cells.map winnerCell := by
  apply List.map_congr_left
  intro a _
  exact winnerCell_idem a

theorem map_comp_stripText_idem (cells : List Cell) :
    cells.map (stripTextCell ∘ stripTextCell) = cells.map stripTextCell := by
  apply List.map_congr_left
  intro a _
  exact stripTextCell_idem a

theorem columnStd_stable (parseTs : String → Option Int) (c c' : String × List Cell)
    (h : columnStd parseTs c = .ok c') : columnStd parseTs c' = .ok c' := by
  obtain ⟨k, cells⟩ := c
  by_cases h1 : k = "utcDate"
  · subst h1
    simp only [columnStd, exBind] at h
    simp at h
    subst h
    simp [columnStd, exBind, map_toDatetime_idem, map_comp_toDatetime_idem]
  · by_cases h2 : k = "lastUpdated"
    · subst h2
      simp [columnStd, exBind] at h
      subst h
      simp [columnStd, exBind, map_toDatetime_idem, map_comp_toDatetime_idem]
    · by_cases h3 : k = "matchday"
      · subst h3
        simp [columnStd, exBind] at h
        cases hcc : convertIntColumn cells with
        | error e => simp [hcc] at h
        | ok cells2 =>
            simp [hcc] at h
            subst h
            simp [columnStd, exBind, convertIntColumn_stable cells cells2 hcc]
      · by_cases h4 : k = "id"
        · subst h4
          simp [columnStd, exBind] at h
          cases hcc : convertIntColumn cells with
          | error e => simp [hcc] at h
          | ok cells2 =>
              simp [hcc] at h
              subst h
              simp [columnStd, exBind, convertIntColumn_stable cells cells2 hcc]
        · by_cases h5 : k = "homeTeam.id"
          · subst h5
            simp [columnStd, exBind] at h
            cases hcc : convertIntColumn cells with
            | error e => simp [hcc] at h
            | ok cells2 =>
                simp [hcc] at h
                subst h
                simp [columnStd, exBind, convertIntColumn_stable cells cells2 hcc]
          · by_cases h6 : k = "awayTeam.id"
            · subst h6
              simp [columnStd, exBind] at h
              cases hcc : convertIntColumn cells with
              | error e => simp [hcc] at h
              | ok cells2 =>
                  simp [hcc] at h
                  subst h
                  simp [columnStd, exBind, convertIntColumn_stable cells cells2 hcc]
            · by_cases h7 : k = "score.winner"
              · subst h7
                simp [columnStd, exBind] at h
                subst h
                simp [columnStd, exBind, map_winner_idem, map_comp_winner_idem]
              · by_cases h8 : k = "homeTeam.name"
                · subst h8
                  simp [columnStd, exBind] at h
                  subst h
                  simp [columnStd, exBind, map_stripText_idem, map_comp_stripText_idem]
                · by_cases h9 : k = "awayTeam.name"
                  · subst h9
                    simp [columnStd, exBind] at h
                    subst h
                    simp [columnStd, exBind, map_stripText_idem, map_comp_stripText_idem]
                  · simp [columnStd, exBind, h1, h2, h3, h4, h5, h6, h7, h8, h9] at h
                    subst h
                    simp [columnStd, exBind, h1, h2, h3, h4, h5, h6, h7, h8, h9]

theorem columnStd_key (parseTs : String → Option Int) (k : String) (cells : List Cell)
    (c' : String × List Cell) (h : columnStd parseTs (k, cells) = .ok c') : c'.1 = k := by
  simp only [columnStd, exBind_eq_ok] at h
  obtain ⟨a, _, b, _, c2, _, d, _, hfin⟩ := h
  simp only [Except.ok.injEq] at hfin
  rw [← hfin]

theorem columnStd_nontarget (parseTs : String → Option Int) (c : String × List Cell)
    (h : c.1 ∉ targetColumns) : columnStd parseTs c = .ok c := by
  obtain ⟨k, cells⟩ := c
  simp only [targetColumns, List.mem_cons, List.not_mem_nil, or_false, not_or] at h
  obtain ⟨h1, h2, h3, h4, h5, h6, h7, h8, h9⟩ := h
  simp [columnStd, exBind, h1, h2, h3, h4, h5, h6, h7, h8, h9]

theorem mapMExcept_forall₂ {α β : Type} (g : α → Except StdError β) :
    ∀ l l', mapMExcept g l = .ok l' → List.Forall₂ (fun a b => g a = .ok b) l l' := by
  intro l
  induction l with
  | nil =>
      intro l' h
      simp only [mapMExcept, Except.ok.injEq] at h
      subst h
      exact List.Forall₂.nil
  | cons a rest ih =>
      intro l' h
      cases ha : g a with
      | error e => simp [mapMExcept, ha] at h
      | ok b =>
          cases hrest : mapMExcept g rest with
          | error e => simp [mapMExcept, ha, hrest] at h
          | ok bs =>
              simp only [mapMExcept, ha, hrest, Except.ok.injEq] at h
              subst h
              exact List.Forall₂.cons ha (ih bs hrest)

/-! ### C7 — idempotence of `standardize_types` -/

/-- C7.  `standardize_types` is idempotent: whenever it yields a
standardized table, applying it again to that table succeeds and
returns the same table, for every timestamp parser. -/
theorem standardize_types_c7 :
    ∀ (parseTs : String → Option Int) (df out : DataFrame),
      standardize_types parseTs df = .ok out → standardize_types parseTs out = .ok out := by
  intro parseTs df out h
  rw [standardize_eq_mapM] at h ⊢
  exact mapMExcept_stable (columnStd parseTs) (columnStd_stable parseTs) df out h

/-- C7, witness: a concrete frame with a winner column and a matchday
column standardizes once, and the theorem yields the second, identical
pass. -/
theorem standardize_types_c7_witness :
    standardize_types noTsParse
        [("matchday", [Cell.str "3", Cell.na]), ("score.winner", [Cell.str "HOME_TEAM", Cell.str "X"])] =
      .ok [("matchday", [Cell.int 3, Cell.na]), ("score.winner", [Cell.str "H", Cell.str "X"])] ∧
    standardize_types noTsParse
        [("matchday", [Cell.int 3, Cell.na]), ("score.winner", [Cell.str "H", Cell.str "X"])] =
      .ok [("matchday", [Cell.int 3, Cell.na]), ("score.winner", [Cell.str "H", Cell.str "X"])] :=
  ⟨by decide,
    standardize_types_c7 noTsParse
      [("matchday", [Cell.str "3", Cell.na]), ("score.winner", [Cell.str "HOME_TEAM", Cell.str "X"])]
      [("matchday", [Cell.int 3, Cell.na]), ("score.winner", [Cell.str "H", Cell.str "X"])]
      (by decide)⟩

/-! ### C8 — tolerance of malformed input -/

/-- C8, counterexample.  The claim says no coercion failure raises.  On
the code, a `matchday` cell `"1.5"` passes `pd.to_numeric` (value 3/2)
but the subsequent `astype("Int64")` safe cast raises, aborting
standardization instead of degrading the cell to missing. -/
theorem standardize_types_c8_counterexample :
    standardize_types noTsParse [("matchday", [Cell.str "1.5"])] = .error .int64CastError ∧
    parseDecimal "1.5" = some (mkRat 3 2) ∧ (mkRat 3 2).den ≠ 1 := by
  refine ⟨by decide, by decide, by decide⟩

/-- C8, amended.  The standardizer is tolerant in these senses: a frame
none of whose columns is targeted passes through unchanged and without
error; an unrecognized winner value passes through unchanged rather
than becoming missing; a string that fails the numeric parse degrades
to missing; a string the timestamp parser rejects degrades to missing.
However a numeric cell whose value is non-integral in an
integer-target column raises the `Int64` cast error and aborts (see the
counterexample), so not every coercion failure degrades to missing. -/
theorem standardize_types_c8_amended :
    (∀ (parseTs : String → Option Int) (df : DataFrame),
        (∀ c ∈ df, c.1 ∉ targetColumns) → standardize_types parseTs df = .ok df) ∧
    (∀ s : String, WINNER_MAP.find? (fun kv => kv.1 = s) = none → winnerCell (.str s) = .str s) ∧
    (∀ c : Cell, winnerMapCell c = .na → winnerCell c = c) ∧
    (∀ s : String, parseDecimal s = none → astypeInt64Cell (toNumericCell (.str s)) = .ok .na) ∧
    (∀ (parseTs : String → Option Int) (s : String), parseTs s = none →
        toDatetimeCell parseTs (.str s) = .na) := by
  refine ⟨?_, ?_, ?_, ?_, ?_⟩
  · intro parseTs df h
    rw [standardize_eq_mapM]
    exact mapMExcept_ok_id _ df (fun c hc => columnStd_nontarget parseTs c (h c hc))
  · intro s h
    simp [winnerCell, winnerMapCell, fillnaCell, h]
  · intro c h
    rw [winnerCell, h]
    rfl
  · intro s h
    simp [toNumericCell, h, astypeInt64Cell]
  · intro parseTs s h
    simp [toDatetimeCell, h]

/-- C8, witness: the amended tolerance clauses at concrete inputs — an
untargeted frame survives unchanged, `"X"` passes through the winner
remap, `"n/a"` and an unparsed timestamp degrade to missing. -/
theorem standardize_types_c8_witness :
    standardize_types noTsParse [("foo", [Cell.int 1])] = .ok [("foo", [Cell.int 1])] ∧
    winnerCell (.str "X") = .str "X" ∧
    astypeInt64Cell (toNumericCell (.str "n/a")) = .ok .na ∧
    toDatetimeCell noTsParse (.str "2023-08-11T19:00:00Z") = .na :=
  ⟨standardize_types_c8_amended.1 noTsParse [("foo", [Cell.int 1])] (by decide),
    standardize_types_c8_amended.2.1 "X" (by decide),
    standardize_types_c8_amended.2.2.2.1 "n/a" (by decide),
    standardize_types_c8_amended.2.2.2.2 noTsParse "2023-08-11T19:00:00Z" rfl⟩

/-! ### C10 — frame effect of `standardize_types` -/

/-- C10.  `standardize_types` preserves the column names in order, and
every column outside the nine targets is returned with its values
unchanged.  (The input table itself is untouched: the embedding is
purely functional, mirroring `df.copy()`.) -/
theorem standardize_types_c10 :
    ∀ (parseTs : String → Option Int) (df out : DataFrame),
      standardize_types parseTs df = .ok out →
      out.map Prod.fst = df.map Prod.fst ∧
      (∀ p ∈ List.zip df out, p.1.1 ∉ targetColumns → p.2 = p.1) := by
  intro parseTs df out h
  rw [standardize_eq_mapM] at h
  have hf := mapMExcept_forall₂ (columnStd parseTs) df out h
  constructor
  · clear h
    induction hf with
    | nil => rfl
    | @cons a b l1 l2 ha hrest ih =>
        rw [List.map_cons, List.map_cons, ih, columnStd_key parseTs a.1 a.2 b ha]
  · clear h
    induction hf with
    | nil => intro p hp; cases hp
    | @cons a b l1 l2 ha hrest ih =>
        intro p hp hpt
        rw [List.zip_cons_cons] at hp
        rcases List.mem_cons.1 hp with rfl | hp2
        · have hn := columnStd_nontarget parseTs a hpt
          rw [ha] at hn
          simpa using hn
        · exact ih p hp2 hpt

/-- C10, witness: a frame with an untargeted `foo` column keeps its
names and the `foo` column's values across standardization. -/
theorem standardize_types_c10_witness :
    ([("foo", [Cell.str " a b "]), ("matchday", [Cell.int 7])] : DataFrame).map Prod.fst =
      ([("foo", [Cell.str " a b "]), ("matchday", [Cell.str "7"])] : DataFrame).map Prod.fst ∧
    ((("foo", [Cell.str " a b "]), ("foo", [Cell.str " a b "])) :
        (String × List Cell) × (String × List Cell)).2 =
      (("foo", [Cell.str " a b "]), ("foo", [Cell.str " a b "])).1 :=
  have h := standardize_types_c10 noTsParse
    [("foo", [Cell.str " a b "]), ("matchday", [Cell.str "7"])]
    [("foo", [Cell.str " a b "]), ("matchday", [Cell.int 7])] (by decide)
  ⟨h.1, h.2 (("foo", [Cell.str " a b "]), ("foo", [Cell.str " a b "])) (by decide) (by decide)⟩
